import Mathlib

/-!
Verification development for the "Smile Generator" web application
(`src/app.py`): a shallow embedding of its weighted tag selector,
rating feedback store, session flow and remote image generation, with
theorems about the specified properties.
-/

namespace Smile

/-- A key of the `items` aggregate table: `(category, name)`,
matching `PRIMARY KEY (category, name)` in `init_db`. -/
abbrev Key := String × String

/-- The `items` table: each existing row carries
`(total_score, rating_count)`.  Rows are created with `(0, 0)` by
`init_db` and only ever incremented by non-negative amounts in `rate`,
so the two integers are embedded as `Nat`. -/
abbrev Items := Key → Option (Nat × Nat)

/-- `average = total_score / rating_count if row and rating_count > 0 else 0`,
as computed per candidate inside `weighted_choice` (lines 87-92 of
`src/app.py`).  Python's true division is embedded as division in `ℚ`;
a missing row (`row_map.get(option)` returning `None`) gives `0`. -/
def average (row : Option (Nat × Nat)) : ℚ :=
  match row with
  | some (t, c) => if 0 < c then (t : ℚ) / (c : ℚ) else 0
  | none => 0

/-- `weight = 1 + average` (line 93 of `src/app.py`). -/
def weight (row : Option (Nat × Nat)) : ℚ :=
  1 + average row

/-- The weight list built by the loop of `weighted_choice` over
`options`, looked up in the rows of `category`:
`weights.append(1 + average)` for each option in order. -/
def weightsFor (items : Items) (category : String) (options : List String) : List ℚ :=
  options.map (fun option => weight (items (category, option)))

/-- The draw law of `random.choices(names, weights=weights, k=1)`:
a name is selected with probability equal to its weight divided by the
total weight.  `drawProb w othersSum` is the probability of the
candidate with weight `w` when the remaining candidates' weights sum
to `othersSum`. -/
def drawProb (w othersSum : ℚ) : ℚ :=
  w / (w + othersSum)

theorem average_nonneg (row : Option (Nat × Nat)) : 0 ≤ average row := by
  match row with
  | none => simp [average]
  | some (t, c) =>
    simp only [average]
    split
    · positivity
    · exact le_refl 0

theorem weight_eq_one_add (t c : Nat) (hc : 0 < c) :
    weight (some (t, c)) = 1 + (t : ℚ) / (c : ℚ) := by
  simp [weight, average, hc]

theorem weight_count_zero (t : Nat) : weight (some (t, 0)) = 1 := by
  simp [weight, average]

theorem weight_none : weight none = 1 := by
  simp [weight, average]

theorem one_le_weight (row : Option (Nat × Nat)) : 1 ≤ weight row := by
  have h := average_nonneg row
  simp only [weight]
  linarith

/-- The state of a candidate with all-zero history: either no
aggregate row, or a row with `rating_count = 0`. -/
def zeroHistory (row : Option (Nat × Nat)) : Prop :=
  row = none ∨ ∃ t, row = some (t, 0)

/-- **C1.** In `weighted_choice`, a candidate whose aggregate row has
`rating_count > 0` gets weight `1 + total_score / rating_count`; a
candidate with `rating_count = 0` or no row at all gets weight exactly
`1`; every weight in the computed list is at least `1`; and when every
candidate has all-zero history, every weight in the list is exactly `1`. -/
theorem weighted_choice_weights (items : Items) (category : String)
    (options : List String) :
    (∀ t c, 0 < c → weight (some (t, c)) = 1 + (t : ℚ) / (c : ℚ)) ∧
    (∀ t, weight (some (t, 0)) = 1) ∧
    weight none = 1 ∧
    (∀ w ∈ weightsFor items category options, 1 ≤ w) ∧
    ((∀ option ∈ options, zeroHistory (items (category, option))) →
      ∀ w ∈ weightsFor items category options, w = 1) := by
  refine ⟨weight_eq_one_add, weight_count_zero, weight_none, ?_, ?_⟩
  · intro w hw
    simp only [weightsFor, List.mem_map] at hw
    obtain ⟨option, _, rfl⟩ := hw
    exact one_le_weight _
  · intro hzero w hw
    simp only [weightsFor, List.mem_map] at hw
    obtain ⟨option, hmem, rfl⟩ := hw
    rcases hzero option hmem with h | ⟨t, h⟩
    · rw [h]; exact weight_none
    · rw [h]; exact weight_count_zero t

/-- Witness for C1 on a concrete store: `("areas","beach")` has row
`(5, 1)` giving weight `6`, `("areas","bar")` has row `(0, 0)` giving
weight `1`, and an absent tag gives weight `1`. -/
theorem weighted_choice_weights_witness :
    weightsFor
      (fun k => if k = ("areas", "beach") then some (5, 1)
        else if k = ("areas", "bar") then some (0, 0) else none)
      "areas" ["beach", "bar", "pier"] = [6, 1, 1] ∧
    (∀ w ∈ weightsFor
      (fun k => if k = ("areas", "beach") then some (5, 1)
        else if k = ("areas", "bar") then some (0, 0) else none)
      "areas" ["beach", "bar", "pier"], 1 ≤ w) := by
  constructor
  · simp [weightsFor, weight, average]
    norm_num
  · exact (weighted_choice_weights
      (fun k => if k = ("areas", "beach") then some (5, 1)
        else if k = ("areas", "bar") then some (0, 0) else none)
      "areas" ["beach", "bar", "pier"]).2.2.2.1

theorem weight_strictMono_in_score (c : Nat) (hc : 0 < c)
    (s1 s2 : Nat) (hs : s1 < s2) :
    weight (some (s1, c)) < weight (some (s2, c)) := by
  rw [weight_eq_one_add s1 c hc, weight_eq_one_add s2 c hc]
  have hcQ : (0 : ℚ) < (c : ℚ) := by exact_mod_cast hc
  have hsQ : (s1 : ℚ) < (s2 : ℚ) := by exact_mod_cast hs
  have := div_lt_div_of_pos_right hsQ hcQ
  linarith

theorem drawProb_strictMono (a b W : ℚ) (ha : 0 < a) (hab : a < b)
    (hW : 0 < W) : drawProb a W < drawProb b W := by
  have hb : 0 < b := lt_trans ha hab
  have haW : 0 < a + W := by linarith
  have hbW : 0 < b + W := by linarith
  rw [drawProb, drawProb, div_lt_div_iff₀ haW hbW]
  nlinarith

/-- **C5.** For a fixed `rating_count = c > 0`, strictly increasing a
tag's `total_score` strictly increases the weight `weighted_choice`
computes for it; and, holding the other candidates' weights fixed with
positive total `W`, the probability `random.choices` selects it
strictly increases as well. -/
theorem weight_monotone (c : Nat) (hc : 0 < c) (s1 s2 : Nat)
    (hs : s1 < s2) (W : ℚ) (hW : 0 < W) :
    weight (some (s1, c)) < weight (some (s2, c)) ∧
    drawProb (weight (some (s1, c))) W < drawProb (weight (some (s2, c))) W := by
  have hlt := weight_strictMono_in_score c hc s1 s2 hs
  refine ⟨hlt, drawProb_strictMono _ _ W ?_ hlt hW⟩
  exact lt_of_lt_of_le one_pos (one_le_weight _)

/-- Witness for C5: with `rating_count = 1`, raising `total_score`
from `1` to `5` (weights `2` and `6`) raises the draw probability
against one other weight-1 candidate from `2/3` to `6/7`. -/
theorem weight_monotone_witness :
    0 < 1 ∧ 1 < 5 ∧ (0 : ℚ) < 1 ∧
    weight (some (1, 1)) < weight (some (5, 1)) ∧
    drawProb (weight (some (1, 1))) 1 < drawProb (weight (some (5, 1))) 1 := by
  refine ⟨Nat.one_pos, by norm_num, one_pos, ?_⟩
  exact weight_monotone 1 Nat.one_pos 1 5 (by norm_num) 1 one_pos

/-- A row of the append-only `ratings` table: rating value, the JSON
snapshot of the selection, and the timestamp (`created_at`).  The
selection dict is embedded as its list of `(category, item)` pairs. -/
structure RatingRecord where
  rating : Nat
  selections : List Key
  createdAt : String
deriving DecidableEq

/-- The persistent database state: the `items` aggregate table and the
`ratings` log. -/
structure AppState where
  items : Items
  ratings : List RatingRecord

/-- The per-user session cookie: the optional pending selection
(`last_selection`) and pending image path (`last_image`). -/
structure Session where
  lastSelection : Option (List Key)
  lastImage : Option String
deriving DecidableEq

/-- One `UPDATE items SET total_score = total_score + r,
rating_count = rating_count + 1 WHERE category = ? AND name = ?`
statement: the matching row, when it exists, is incremented; when no
row matches, the statement changes nothing. -/
def updateItem (items : Items) (k : Key) (r : Nat) : Items :=
  fun k' =>
    if k' = k then
      match items k with
      | some (t, c) => some (t + r, c + 1)
      | none => none
    else items k'

/-- The `for category, item in selections.items()` loop of `rate`
(lines 605-614): one `UPDATE` per (category, item) pair. -/
def applyUpdates (r : Nat) (items : Items) (sel : List Key) : Items :=
  sel.foldl (fun acc k => updateItem acc k r) items

/-- The body of the `with get_connection()` block of `rate` (lines
600-614): one `INSERT` into `ratings` followed by one `UPDATE` per
selection pair, committed as a single transaction. -/
def applyRatingTxn (r : Nat) (now : String) (sel : List Key)
    (st : AppState) : AppState :=
  { items := applyUpdates r st.items sel,
    ratings := st.ratings ++ [⟨r, sel, now⟩] }

/-- `save_inspiration_image` (lines 560-568): returns without copying
when `image_path` is `None` or empty, or when the source file does not
exist; otherwise copies the artifact into the inspiration directory.
The result records whether a copy was made; filesystem contents are
abstracted by the predicate `fileExists`. -/
def save_inspiration_image (fileExists : String → Bool)
    (imagePath : Option String) : Bool :=
  match imagePath with
  | none => false
  | some p => if p = "" then false else fileExists p

/-- The outcome of one `POST /rate` request: the database state and
session after the request (both paths end in a redirect to `index`),
and whether the artifact was promoted to the inspiration pool. -/
structure RateOutcome where
  state : AppState
  session : Session
  promoted : Bool

/-- The `/rate` route handler (lines 591-621 of `src/app.py`).
`ratingValue` is the parsed form integer; when the session holds no
truthy pending selection or the rating is outside `range(1, 6)`, the
handler redirects with no state change.  Otherwise it runs the rating
transaction, promotes the pending image on a rating of exactly 5, and
clears both session keys. -/
def rate (fileExists : String → Bool) (now : String) (ratingValue : Int)
    (st : AppState) (sess : Session) : RateOutcome :=
  match sess.lastSelection with
  | some sel@(_ :: _) =>
    if 1 ≤ ratingValue ∧ ratingValue ≤ 5 then
      let r := ratingValue.toNat
      { state := applyRatingTxn r now sel st,
        session := ⟨none, none⟩,
        promoted := if ratingValue = 5 then
          save_inspiration_image fileExists sess.lastImage else false }
    else ⟨st, sess, false⟩
  | _ => ⟨st, sess, false⟩

theorem applyUpdates_not_mem (r : Nat) (items : Items) (sel : List Key)
    (k : Key) (hk : k ∉ sel) : applyUpdates r items sel k = items k := by
  induction sel generalizing items with
  | nil => rfl
  | cons a l ih =>
    have hka : k ≠ a := fun h => hk (h ▸ List.mem_cons_self a l)
    have hkl : k ∉ l := fun h => hk (List.mem_cons_of_mem a h)
    simp only [applyUpdates, List.foldl_cons] at *
    rw [ih (updateItem items a r) hkl]
    simp [updateItem, hka]

theorem applyUpdates_mem (r : Nat) (items : Items) (sel : List Key)
    (hnd : sel.Nodup) (k : Key) (hk : k ∈ sel) (t c : Nat)
    (hrow : items k = some (t, c)) :
    applyUpdates r items sel k = some (t + r, c + 1) := by
  induction sel generalizing items with
  | nil => cases hk
  | cons a l ih =>
    simp only [applyUpdates, List.foldl_cons] at *
    rcases List.mem_cons.mp hk with rfl | hmem
    · have hknl : k ∉ l := (List.nodup_cons.mp hnd).1
      rw [show (List.foldl (fun acc k => updateItem acc k r)
          (updateItem items k r) l) = applyUpdates r (updateItem items k r) l
          from rfl]
      rw [applyUpdates_not_mem r (updateItem items k r) l k hknl]
      simp [updateItem, hrow]
    · have hka : k ≠ a := by
        rintro rfl
        exact (List.nodup_cons.mp hnd).1 hmem
      have : updateItem items a r k = items k := by simp [updateItem, hka]
      exact ih (updateItem items a r) (List.nodup_cons.mp hnd).2 hmem
        (this.trans hrow)

/-- **C2.** For a valid rating `r ∈ 1..5` applied to a pending
selection whose categories are distinct (it is a Python dict), `rate`
increments each selected pair's existing aggregate row by exactly
`(r, 1)` — once per pair — appends exactly one rating record, and
leaves every other pair's aggregate unchanged. -/
theorem rate_updates_aggregates (fileExists : String → Bool) (now : String)
    (r : Int) (st : AppState) (sess : Session) (sel : List Key)
    (hsel : sess.lastSelection = some sel) (hne : sel ≠ [])
    (h1 : 1 ≤ r) (h5 : r ≤ 5)
    (hnd : (sel.map Prod.fst).Nodup) :
    (∀ k ∈ sel, ∀ t c, st.items k = some (t, c) →
      (rate fileExists now r st sess).state.items k = some (t + r.toNat, c + 1)) ∧
    (∀ k ∉ sel, (rate fileExists now r st sess).state.items k = st.items k) ∧
    (rate fileExists now r st sess).state.ratings =
      st.ratings ++ [⟨r.toNat, sel, now⟩] := by
  obtain ⟨a, l, rfl⟩ : ∃ a l, sel = a :: l := by
    cases sel with
    | nil => exact absurd rfl hne
    | cons a l => exact ⟨a, l, rfl⟩
  have hrate : rate fileExists now r st sess =
      { state := applyRatingTxn r.toNat now (a :: l) st,
        session := ⟨none, none⟩,
        promoted := if r = 5 then
          save_inspiration_image fileExists sess.lastImage else false } := by
    simp [rate, hsel, h1, h5]
  rw [hrate]
  have hndpairs : (a :: l).Nodup := List.Nodup.of_map Prod.fst hnd
  refine ⟨?_, ?_, rfl⟩
  · intro k hk t c hrow
    exact applyUpdates_mem r.toNat st.items (a :: l) hndpairs k hk t c hrow
  · intro k hk
    exact applyUpdates_not_mem r.toNat st.items (a :: l) k hk

/-- Witness for C2: rating 5 on the selection
`[("areas","beach")]` with initial row `(0,0)` yields the row
`(5,1)` and one appended rating record; `("areas","bar")` stays
`(0,0)`. -/
theorem rate_updates_aggregates_witness :
    (rate (fun _ => true) "t0" 5
      ⟨fun k => if k = ("areas", "beach") then some (0, 0)
        else if k = ("areas", "bar") then some (0, 0) else none, []⟩
      ⟨some [("areas", "beach")], some "generated/x.png"⟩).state.items
        ("areas", "beach") = some (5, 1) ∧
    (rate (fun _ => true) "t0" 5
      ⟨fun k => if k = ("areas", "beach") then some (0, 0)
        else if k = ("areas", "bar") then some (0, 0) else none, []⟩
      ⟨some [("areas", "beach")], some "generated/x.png"⟩).state.items
        ("areas", "bar") = some (0, 0) ∧
    (rate (fun _ => true) "t0" 5
      ⟨fun k => if k = ("areas", "beach") then some (0, 0)
        else if k = ("areas", "bar") then some (0, 0) else none, []⟩
      ⟨some [("areas", "beach")], some "generated/x.png"⟩).state.ratings =
        [⟨5, [("areas", "beach")], "t0"⟩] := by
  have h := rate_updates_aggregates (fun _ => true) "t0" 5
    ⟨fun k => if k = ("areas", "beach") then some (0, 0)
      else if k = ("areas", "bar") then some (0, 0) else none, []⟩
    ⟨some [("areas", "beach")], some "generated/x.png"⟩
    [("areas", "beach")] rfl (by decide) (by decide) (by decide) (by decide)
  refine ⟨?_, ?_, h.2.2⟩
  · exact h.1 ("areas", "beach") (by decide) 0 0 (by decide)
  · exact h.2.1 ("areas", "bar") (by decide)

/-- The observable database state after one rating event under
SQLite's transactional `with get_connection()` block: when the
transaction commits, all statements of `applyRatingTxn` take effect;
when it fails mid-update, the whole transaction is rolled back to the
initial state. -/
def observedAfterEvent (committed : Bool) (r : Nat) (now : String)
    (sel : List Key) (st : AppState) : AppState :=
  if committed then applyRatingTxn r now sel st else st

/-- **C3.** One rating event is all-or-nothing over the aggregate
store: whether or not the transaction committed, the observable state
shows either every selected pair incremented by `(r, 1)` or every pair
(selected or not) unchanged — never a partial mix. -/
theorem rate_event_atomic (committed : Bool) (r : Nat) (now : String)
    (sel : List Key) (st : AppState)
    (hnd : (sel.map Prod.fst).Nodup) :
    (∀ k ∈ sel, ∀ t c, st.items k = some (t, c) →
      (observedAfterEvent committed r now sel st).items k = some (t + r, c + 1)) ∨
    (∀ k, (observedAfterEvent committed r now sel st).items k = st.items k) := by
  cases committed with
  | false => exact Or.inr fun k => rfl
  | true =>
    left
    intro k hk t c hrow
    exact applyUpdates_mem r st.items sel (List.Nodup.of_map Prod.fst hnd)
      k hk t c hrow

/-- Witness for C3 at the spec's scenario `{A: [x], B: [y]}` with
rating 2: committed shows both pairs incremented, rolled back shows
both unchanged. -/
theorem rate_event_atomic_witness :
    ((∀ k ∈ [(("A", "x") : Key), ("B", "y")], ∀ t c,
        (fun k' => if k' = (("A", "x") : Key) then some (3, 1)
          else if k' = ("B", "y") then some (4, 2) else none) k = some (t, c) →
        (observedAfterEvent true 2 "t1" [("A", "x"), ("B", "y")]
          ⟨fun k' => if k' = (("A", "x") : Key) then some (3, 1)
            else if k' = ("B", "y") then some (4, 2) else none, []⟩).items k
          = some (t + 2, c + 1)) ∨
      (∀ k, (observedAfterEvent true 2 "t1" [("A", "x"), ("B", "y")]
          ⟨fun k' => if k' = (("A", "x") : Key) then some (3, 1)
            else if k' = ("B", "y") then some (4, 2) else none, []⟩).items k
        = (fun k' => if k' = (("A", "x") : Key) then some (3, 1)
            else if k' = ("B", "y") then some (4, 2) else none) k)) ∧
    (observedAfterEvent false 2 "t1" [("A", "x"), ("B", "y")]
      ⟨fun k' => if k' = (("A", "x") : Key) then some (3, 1)
        else if k' = ("B", "y") then some (4, 2) else none, []⟩).items
      ("A", "x") = some (3, 1) := by
  constructor
  · exact rate_event_atomic true 2 "t1" [("A", "x"), ("B", "y")]
      ⟨fun k' => if k' = (("A", "x") : Key) then some (3, 1)
        else if k' = ("B", "y") then some (4, 2) else none, []⟩ (by decide)
  · rfl

/-- **C4.** Any rating value outside `{1,2,3,4,5}` is rejected before
any store mutation: `rate` returns the unchanged database state (no
ratings row appended, no aggregate row changed), the unchanged
session, and performs no promotion — the same redirect path as a
missing selection. -/
theorem rate_rejects_invalid_rating (fileExists : String → Bool)
    (now : String) (r : Int) (st : AppState) (sess : Session)
    (hr : r < 1 ∨ 5 < r) :
    rate fileExists now r st sess = ⟨st, sess, false⟩ := by
  have hcond : ¬(1 ≤ r ∧ r ≤ 5) := by
    rcases hr with h | h
    · exact fun hc => absurd hc.1 (not_le.mpr h)
    · exact fun hc => absurd hc.2 (not_le.mpr h)
  unfold rate
  match hsel : sess.lastSelection with
  | none => rfl
  | some [] => rfl
  | some (a :: l) => simp [hcond]

/-- Witness for C4: ratings 0 and 6 with a pending selection both
leave the store, the log and the session untouched. -/
theorem rate_rejects_invalid_rating_witness :
    rate (fun _ => true) "t2" 0
      ⟨fun _ => some (0, 0), []⟩ ⟨some [("areas", "beach")], none⟩ =
      ⟨⟨fun _ => some (0, 0), []⟩, ⟨some [("areas", "beach")], none⟩, false⟩ ∧
    rate (fun _ => true) "t2" 6
      ⟨fun _ => some (0, 0), []⟩ ⟨some [("areas", "beach")], none⟩ =
      ⟨⟨fun _ => some (0, 0), []⟩, ⟨some [("areas", "beach")], none⟩, false⟩ := by
  constructor
  · exact rate_rejects_invalid_rating (fun _ => true) "t2" 0
      ⟨fun _ => some (0, 0), []⟩ ⟨some [("areas", "beach")], none⟩
      (Or.inl (by decide))
  · exact rate_rejects_invalid_rating (fun _ => true) "t2" 6
      ⟨fun _ => some (0, 0), []⟩ ⟨some [("areas", "beach")], none⟩
      (Or.inr (by decide))

/-- **C9.** A rating request arriving with no pending selection in the
session is a no-op redirect: no ratings row is appended, no aggregate
changes, and the session is left as it was. -/
theorem rate_no_pending_selection (fileExists : String → Bool)
    (now : String) (r : Int) (st : AppState) (sess : Session)
    (hsel : sess.lastSelection = none) :
    rate fileExists now r st sess = ⟨st, sess, false⟩ := by
  unfold rate
  rw [hsel]

/-- Witness for C9: a rating of 4 against an empty session changes
nothing. -/
theorem rate_no_pending_selection_witness :
    rate (fun _ => true) "t3" 4 ⟨fun _ => some (7, 2), []⟩ ⟨none, some "p"⟩ =
      ⟨⟨fun _ => some (7, 2), []⟩, ⟨none, some "p"⟩, false⟩ :=
  rate_no_pending_selection (fun _ => true) "t3" 4
    ⟨fun _ => some (7, 2), []⟩ ⟨none, some "p"⟩ rfl

/-- **C7.** On the valid rating path, a rating of exactly 5 promotes
the pending artifact into the inspiration pool (when the pending image
path is a nonempty path to an existing file), while ratings 1..4 never
promote; in both cases the normal rating transaction still runs. -/
theorem rate_promotes_only_on_five (fileExists : String → Bool)
    (now : String) (st : AppState) (sess : Session) (sel : List Key)
    (p : String)
    (hsel : sess.lastSelection = some sel) (hne : sel ≠ [])
    (himg : sess.lastImage = some p) (hp : p ≠ "")
    (hfile : fileExists p = true) :
    (rate fileExists now 5 st sess).promoted = true ∧
    (rate fileExists now 5 st sess).state =
      applyRatingTxn 5 now sel st ∧
    (∀ r : Int, 1 ≤ r → r ≤ 4 →
      (rate fileExists now r st sess).promoted = false) := by
  obtain ⟨a, l, rfl⟩ : ∃ a l, sel = a :: l := by
    cases sel with
    | nil => exact absurd rfl hne
    | cons a l => exact ⟨a, l, rfl⟩
  refine ⟨?_, ?_, ?_⟩
  · simp [rate, hsel, save_inspiration_image, himg, hp, hfile]
  · simp [rate, hsel]
  · intro r h1 h4
    have hne5 : r ≠ 5 := by omega
    have h5 : r ≤ 5 := by omega
    simp [rate, hsel, h1, h5, hne5]

/-- Witness for C7: rating 5 with pending image `generated/x.png`
promotes; rating 4 in the same situation does not. -/
theorem rate_promotes_only_on_five_witness :
    (rate (fun _ => true) "t4" 5 ⟨fun _ => some (0, 0), []⟩
      ⟨some [("areas", "beach")], some "generated/x.png"⟩).promoted = true ∧
    (rate (fun _ => true) "t4" 4 ⟨fun _ => some (0, 0), []⟩
      ⟨some [("areas", "beach")], some "generated/x.png"⟩).promoted = false := by
  have h := rate_promotes_only_on_five (fun _ => true) "t4"
    ⟨fun _ => some (0, 0), []⟩
    ⟨some [("areas", "beach")], some "generated/x.png"⟩
    [("areas", "beach")] "generated/x.png" rfl (by decide) rfl (by decide) rfl
  exact ⟨h.1, h.2.2 4 (by decide) (by decide)⟩

/-- **C10.** A successful rating clears both session keys, so an
immediately repeated rating request on the resulting session takes the
no-op redirect path: the post-rating state is returned unchanged and
nothing is promoted — each pending selection feeds the aggregates at
most once. -/
theorem rate_clears_session (fileExists : String → Bool) (now : String)
    (r : Int) (st : AppState) (sess : Session) (sel : List Key)
    (hsel : sess.lastSelection = some sel) (hne : sel ≠ [])
    (h1 : 1 ≤ r) (h5 : r ≤ 5) :
    (rate fileExists now r st sess).session = ⟨none, none⟩ ∧
    (∀ (fe2 : String → Bool) (now2 : String) (r2 : Int),
      rate fe2 now2 r2 (rate fileExists now r st sess).state
        (rate fileExists now r st sess).session =
      ⟨(rate fileExists now r st sess).state, ⟨none, none⟩, false⟩) := by
  obtain ⟨a, l, rfl⟩ : ∃ a l, sel = a :: l := by
    cases sel with
    | nil => exact absurd rfl hne
    | cons a l => exact ⟨a, l, rfl⟩
  have hsession : (rate fileExists now r st sess).session = ⟨none, none⟩ := by
    simp [rate, hsel, h1, h5]
  refine ⟨hsession, fun fe2 now2 r2 => ?_⟩
  rw [hsession]
  exact rate_no_pending_selection fe2 now2 r2
    (rate fileExists now r st sess).state ⟨none, none⟩ rfl

/-- Witness for C10: after rating 3 on a one-pair selection, the
session is cleared and a second rating 3 leaves the stored state
as-is. -/
theorem rate_clears_session_witness :
    (rate (fun _ => true) "t5" 3 ⟨fun _ => some (0, 0), []⟩
      ⟨some [("areas", "beach")], some "generated/x.png"⟩).session =
      ⟨none, none⟩ ∧
    rate (fun _ => true) "t6" 3
      (rate (fun _ => true) "t5" 3 ⟨fun _ => some (0, 0), []⟩
        ⟨some [("areas", "beach")], some "generated/x.png"⟩).state
      (rate (fun _ => true) "t5" 3 ⟨fun _ => some (0, 0), []⟩
        ⟨some [("areas", "beach")], some "generated/x.png"⟩).session =
      ⟨(rate (fun _ => true) "t5" 3 ⟨fun _ => some (0, 0), []⟩
        ⟨some [("areas", "beach")], some "generated/x.png"⟩).state,
        ⟨none, none⟩, false⟩ := by
  have h := rate_clears_session (fun _ => true) "t5" 3
    ⟨fun _ => some (0, 0), []⟩
    ⟨some [("areas", "beach")], some "generated/x.png"⟩
    [("areas", "beach")] rfl (by decide) (by decide) (by decide)
  exact ⟨h.1, h.2 (fun _ => true) "t6" 3⟩

/-- One JSON element of the response's `"data"` array; `b64Json` is
the value of its `"b64_json"` field, `none` when absent and possibly
the empty string (both falsy in Python). -/
structure ImageDatum where
  b64Json : Option String
deriving DecidableEq

/-- The outcome of the single `urllib.request.urlopen` call made by
`generate_ai_image`: an HTTP error status with its body, a transport
error with its reason, or a 2xx response whose decoded JSON holds the
`"data"` array. -/
inductive ApiResponse where
  | httpError (body : String)
  | urlError (reason : String)
  | success (data : List ImageDatum)
deriving DecidableEq

/-- `generate_ai_image` (lines 499-544 of `src/app.py`): fails when no
API key is configured; turns an HTTP error, a transport error, an
empty `"data"` array, or a missing/empty `"b64_json"` payload into a
`RuntimeError` carrying a human-readable reason; on success returns
the decoded payload (the image itself is out of scope, so the base64
text stands for it). -/
def generate_ai_image (apiKey : String) (resp : ApiResponse) :
    Except String String :=
  if apiKey = "" then
    .error "Missing SMILE_IMAGE_API_KEY or OPENAI_API_KEY for AI image generation."
  else
    match resp with
    | .httpError body => .error ("Image generation failed: " ++ body)
    | .urlError reason => .error ("Image generation failed: " ++ reason)
    | .success [] => .error "Image generation failed: no image data returned."
    | .success (d :: _) =>
      match d.b64Json with
      | none => .error "Image generation failed: missing image payload."
      | some "" => .error "Image generation failed: missing image payload."
      | some payload => .ok payload

/-- What the `/generate` route renders: the error page (carrying the
error text and the selection that triggered it) or the image page. -/
inductive GeneratePage where
  | errorPage (error : String) (selections : List Key)
  | imagePage (imagePath : String) (selections : List Key)
deriving DecidableEq

/-- The `/generate` route handler (lines 579-588 of `src/app.py`)
after the selection has been drawn.  The synchronous API call consumes
exactly the head of `responses` (the remaining stream is returned
untouched — no automatic retry).  A `RuntimeError` is caught and
rendered on the error page together with `selections`, leaving the
session as it was; on success the selection and saved image path are
stored in the session. -/
def generateRoute (apiKey : String) (selections : List Key)
    (savedPath : String) (resp : ApiResponse) (rest : List ApiResponse)
    (sess : Session) : GeneratePage × Session × List ApiResponse :=
  match generate_ai_image apiKey resp with
  | .error e => (.errorPage e selections, sess, rest)
  | .ok _ => (.imagePage savedPath selections,
      ⟨some selections, some savedPath⟩, rest)

/-- The failure modes of the remote call: HTTP error, network error,
or a response with a missing or empty image payload. -/
def failureResponse : ApiResponse → Prop
  | .httpError _ => True
  | .urlError _ => True
  | .success [] => True
  | .success (d :: _) => d.b64Json = none ∨ d.b64Json = some ""

theorem failMsg_append_ne_empty (s : String) :
    ("Image generation failed: " ++ s) ≠ "" := by
  intro h
  have h2 := congrArg String.length h
  rw [String.length_append] at h2
  have hlen : ("Image generation failed: ").length = 25 := rfl
  rw [hlen] at h2
  have hnil : ("" : String).length = 0 := rfl
  rw [hnil] at h2
  omega

/-- **C8.** With an API key configured, every remote generation
failure surfaces to the caller as the error page carrying a nonempty
human-readable reason together with the selection that triggered it;
the session is left untouched (context preserved for retry) and
exactly one API call was consumed — the rest of the response stream is
returned unused, so nothing is retried automatically. -/
theorem generate_failure_surfaced (apiKey : String) (hkey : apiKey ≠ "")
    (selections : List Key) (savedPath : String) (resp : ApiResponse)
    (rest : List ApiResponse) (sess : Session)
    (hfail : failureResponse resp) :
    ∃ e, generate_ai_image apiKey resp = .error e ∧ e ≠ "" ∧
      generateRoute apiKey selections savedPath resp rest sess =
        (.errorPage e selections, sess, rest) := by
  have hmsg : ∃ e, generate_ai_image apiKey resp = .error e ∧ e ≠ "" := by
    match resp with
    | .httpError body =>
      exact ⟨"Image generation failed: " ++ body,
        by simp [generate_ai_image, hkey], failMsg_append_ne_empty body⟩
    | .urlError reason =>
      exact ⟨"Image generation failed: " ++ reason,
        by simp [generate_ai_image, hkey], failMsg_append_ne_empty reason⟩
    | .success [] =>
      exact ⟨"Image generation failed: no image data returned.",
        by simp [generate_ai_image, hkey], by simp⟩
    | .success (d :: ds) =>
      rcases hfail with h | h
      · exact ⟨"Image generation failed: missing image payload.",
          by simp [generate_ai_image, hkey, h], by simp⟩
      · exact ⟨"Image generation failed: missing image payload.",
          by simp [generate_ai_image, hkey, h], by simp⟩
  obtain ⟨e, he, hne⟩ := hmsg
  exact ⟨e, he, hne, by simp [generateRoute, he]⟩

/-- Witness for C8: a network failure with reason `"timed out"`
renders the error page with the triggering selection, leaves the
session untouched and consumes only the head of the response stream. -/
theorem generate_failure_surfaced_witness :
    ∃ e, generate_ai_image "k" (.urlError "timed out") = .error e ∧ e ≠ "" ∧
      generateRoute "k" [("areas", "beach")] "generated/x.png"
        (.urlError "timed out") [.success []] ⟨none, none⟩ =
        (.errorPage e [("areas", "beach")], ⟨none, none⟩, [.success []]) :=
  generate_failure_surfaced "k" (by decide) [("areas", "beach")]
    "generated/x.png" (.urlError "timed out") [.success []] ⟨none, none⟩
    trivial

/-- Modelled from the spec: `choose_many(category, candidates, count)`
does not appear in `src/app.py` (it belongs to other variants of this
repository).  Per the spec it "repeatedly calls the single-choice
draw, removing the previously drawn tag from the candidate pool each
iteration (sampling without replacement), until `count` tags are drawn
or the pool is exhausted".  The randomness of the single weighted draw
is abstracted by the oracle `pick`, which maps the current pool to the
index drawn in it (reduced modulo the pool size, since the weighted
draw always returns a member of the pool). -/
def choose_many (pick : List String → Nat) : Nat → List String → List String
  | 0, _ => []
  | _ + 1, [] => []
  | n + 1, t :: ts =>
    let chosen := (t :: ts).get
      ⟨pick (t :: ts) % (t :: ts).length,
        Nat.mod_lt _ (Nat.succ_pos ts.length)⟩
    chosen :: choose_many pick n ((t :: ts).erase chosen)

/-- **C6.** For every draw oracle and every duplicate-free candidate
list, `choose_many` with `k ≤ |candidates|` returns exactly `k`
pairwise-distinct tags, all drawn from the candidates. -/
theorem choose_many_without_replacement (pick : List String → Nat)
    (k : Nat) (candidates : List String) (hk : k ≤ candidates.length)
    (hnd : candidates.Nodup) :
    (choose_many pick k candidates).length = k ∧
    (choose_many pick k candidates).Nodup ∧
    ∀ t ∈ choose_many pick k candidates, t ∈ candidates := by
  induction k generalizing candidates with
  | zero => exact ⟨rfl, List.nodup_nil, by intro t ht; cases ht⟩
  | succ n ih =>
    match candidates with
    | [] => exact absurd hk (by simp)
    | t :: ts =>
      have hchosen : (t :: ts).get
          ⟨pick (t :: ts) % (t :: ts).length,
            Nat.mod_lt _ (Nat.succ_pos ts.length)⟩ ∈ t :: ts :=
        List.get_mem _ _ _
      have hlen : ((t :: ts).erase ((t :: ts).get
          ⟨pick (t :: ts) % (t :: ts).length,
            Nat.mod_lt _ (Nat.succ_pos ts.length)⟩)).length =
          (t :: ts).length - 1 :=
        List.length_erase_of_mem hchosen
      have hk' : n ≤ ((t :: ts).erase ((t :: ts).get
          ⟨pick (t :: ts) % (t :: ts).length,
            Nat.mod_lt _ (Nat.succ_pos ts.length)⟩)).length := by
        rw [hlen]
        simp only [List.length_cons] at hk ⊢
        omega
      have hnd' := hnd.erase ((t :: ts).get
        ⟨pick (t :: ts) % (t :: ts).length,
          Nat.mod_lt _ (Nat.succ_pos ts.length)⟩)
      obtain ⟨ihlen, ihnd, ihmem⟩ := ih _ hk' hnd'
      have hunfold : choose_many pick (n + 1) (t :: ts) =
          (t :: ts).get
            ⟨pick (t :: ts) % (t :: ts).length,
              Nat.mod_lt _ (Nat.succ_pos ts.length)⟩ ::
          choose_many pick n ((t :: ts).erase ((t :: ts).get
            ⟨pick (t :: ts) % (t :: ts).length,
              Nat.mod_lt _ (Nat.succ_pos ts.length)⟩)) := rfl
      rw [hunfold]
      refine ⟨?_, ?_, ?_⟩
      · rw [List.length_cons, ihlen]
      · rw [List.nodup_cons]
        refine ⟨fun hmem => ?_, ihnd⟩
        exact hnd.not_mem_erase (ihmem _ hmem)
      · intro x hx
        rcases List.mem_cons.mp hx with rfl | hx
        · exact hchosen
        · exact List.mem_of_mem_erase (ihmem x hx)

/-- Witness for C6: drawing 2 tags from `["beach", "bar", "pier"]`
with the oracle that always picks index 1 yields 2 distinct members of
the pool. -/
theorem choose_many_without_replacement_witness :
    (choose_many (fun _ => 1) 2 ["beach", "bar", "pier"]).length = 2 ∧
    (choose_many (fun _ => 1) 2 ["beach", "bar", "pier"]).Nodup ∧
    ∀ t ∈ choose_many (fun _ => 1) 2 ["beach", "bar", "pier"],
      t ∈ ["beach", "bar", "pier"] :=
  choose_many_without_replacement (fun _ => 1) 2 ["beach", "bar", "pier"]
    (by decide) (by decide)

end Smile
